import Mathlib

/-!
# Verified model of the `profanity-guard` content-moderation engine

This development gives a shallow embedding, in Lean 4, of the
`ProfanityGuard` class from `packages/profanity-guard/src/main.ts`
(together with the enums from its type-definition module), and proves
the specified properties of the engine: non-overlap of match ranges,
the level/severity gating, the export/import round trip, the scoring
formula, sanitization idempotence on clean text, and the documented
boundary behaviour.

Modelling conventions:
 * JS strings are modelled as Lean `String`/`List Char`; positions are
   character indices (the concrete inputs considered are all in the
   Basic Multilingual Plane, where JS UTF-16 indices agree with
   character indices).
 * The JS `Map` backing the word library is modelled as an association
   list in insertion order; `Map.set` overwrites in place, `Map.get`
   is exact string lookup.
 * `String.prototype.toLowerCase`/`toUpperCase` and the case folding of
   the regex `i` flag are modelled with Lean's ASCII-only
   `Char.toLower`/`Char.toUpper`.  This agrees with JS on the ASCII
   range; for non-ASCII input characters JS folds more case pairs.
 * Regexes never appear as such: the only patterns the engine builds
   come from `createWordPattern`, whose precise shape is known, so the
   matcher below implements exactly that pattern family with JS
   backtracking semantics (leftmost start, alternatives in order,
   greedy quantifiers with backtracking, `lastIndex` advancing past
   each match as in `RegExp.exec` with the `g` flag).
-/

/-! ## Character predicates

`[a-zA-Z0-9]` (the boundary/anchor classes of the generated patterns),
`\w = [A-Za-z0-9_]` (used by `\b`), and the separator class
`[\W_\s]`, which — since `\W` is the complement of `\w` and every
whitespace character is non-alphanumeric — is exactly the complement
of `[a-zA-Z0-9]`. -/

def isAsciiAlnum (c : Char) : Bool :=
  (('a' ≤ c ∧ c ≤ 'z') ∨ ('A' ≤ c ∧ c ≤ 'Z') ∨ ('0' ≤ c ∧ c ≤ '9') : Prop)

def isWordChar (c : Char) : Bool :=
  isAsciiAlnum c || c = '_'

def isSepChar (c : Char) : Bool :=
  !(isAsciiAlnum c)

/-- The whitespace set of the JS regex `\s` class, used by
`String.prototype.split(/\s+/)` in `getProfanityScore`. -/
def isJsWs (c : Char) : Bool :=
  c ∈ ['\t', '\n', '\x0b', '\x0c', '\r', ' ', '\u00a0', '\u1680'] ||
  ('\u2000' ≤ c ∧ c ≤ '\u200a' : Prop) ||
  c ∈ ['\u2028', '\u2029', '\u202f', '\u205f', '\u3000', '\ufeff']

/-- Model of `String.prototype.toLowerCase` (ASCII range; see header). -/
def toLowerStr (s : String) : String :=
  String.mk (s.data.map Char.toLower)

/-! ## The obfuscation substitution table

Transcribed character-for-character from the `substitutions` record in
`createWordPattern`.  Each entry maps a base letter to the list of
characters of its regex character class (regex-level escapes such as
`\[`, `\]`, `\+` denote the bracket/plus characters themselves; the
`u` class contains the combining low line U+0332 as its own member). -/

def substitutionTable : List (Char × List Char) := [
  (('a'), ['a', 'а', 'à', 'á', 'â', 'ã', 'ä', 'å', 'ā', 'ă', 'ą', 'ǎ', 'α', 'а', 'ӓ', 'ӑ', '@', '4', '∆', '^', 'Λ', 'λ', 'æ', '∀', 'ª']),
  (('b'), ['b', 'ь', 'Ь', 'β', 'в', 'В', '6', '8', 'ß', 'þ', 'ҍ', '|', '3', 'ḃ', 'ḅ', 'ҩ']),
  (('c'), ['c', 'с', 'ϲ', 'ć', 'č', 'ċ', 'ç', 'ĉ', '¢', 'ς', 'ҫ', '©', 'ċ', 'ƈ', 'ĉ']),
  (('d'), ['d', 'ď', 'đ', 'ð', 'δ', 'ԁ', 'þ', 'ḋ', 'ḍ']),
  (('e'), ['e', 'е', 'è', 'é', 'ê', 'ë', 'ē', 'ĕ', 'ė', 'ę', 'ě', 'ə', 'э', 'ԑ', '3', '€', 'ℯ', '∈', 'ё', 'є', 'ε', '℮', 'ҽ']),
  (('f'), ['f', 'ƒ', 'ფ', 'ϝ', 'ғ', 'ӷ', 'ḟ', '₣', 'ſ']),
  (('g'), ['g', 'ģ', 'ğ', 'ġ', 'ǧ', 'ց', 'ĝ', '6', '9', 'ɡ', 'ɢ', '₲', 'ǥ']),
  (('h'), ['h', 'һ', 'հ', 'ң', 'ҥ', 'ӊ', '#', 'ħ', 'ḣ', 'ḥ', 'Һ']),
  (('i'), ['i', 'і', 'ï', 'î', 'í', 'ī', 'ĩ', 'į', 'ì', 'ı', 'ɪ', 'і', 'ӏ', '1', '!', '|', '׀', '¡', 'ι', 'í', 'ɨ']),
  (('j'), ['j', 'ј', 'ʝ', 'ĵ', 'ј', 'ĵ', 'ɉ']),
  (('k'), ['k', 'ķ', 'ĸ', 'к', 'қ', 'ҝ', '|', '<', 'ḳ', 'ҟ']),
  (('l'), ['l', 'ĺ', 'ļ', 'ľ', 'ŀ', 'ł', 'l', 'ӏ', '1', '!', '|', '׀', 'Ɩ', 'ḷ', 'ḹ']),
  (('m'), ['m', 'м', 'ӎ', 'ḿ', 'ṁ', 'ṃ']),
  (('n'), ['n', 'ñ', 'ń', 'ņ', 'ň', 'ŋ', 'η', 'п', 'ո', 'ռ', 'ṅ', 'ṇ']),
  (('o'), ['o', 'о', 'ò', 'ó', 'ô', 'õ', 'ö', 'ø', 'ō', 'ŏ', 'ő', 'օ', 'ο', 'σ', 'о', 'ӧ', '0', '(', ')', '[', ']', '\x7b', '\x7d', '⊙', '◯', 'ø', 'ӧ']),
  (('p'), ['p', 'р', 'ρ', 'թ', 'ԗ', 'þ', 'ṗ', 'ṕ', '℗']),
  (('q'), ['q', 'գ', '9', 'ԛ']),
  (('r'), ['r', 'ŕ', 'ŗ', 'ř', 'г', 'я', 'ԁ', 'ʀ', '®', 'ṙ', 'ṛ']),
  (('s'), ['s', 'ѕ', 'ś', 'ŝ', 'ş', 'š', 'ș', 'ʂ', '$', '5', 'z', 'ž', '§', 'ṡ', 'ṣ']),
  (('t'), ['t', 'ť', 'ţ', 'ț', 'т', 'ҭ', '7', '+', '†', '‡', 'ṫ', 'ṭ']),
  (('u'), ['u', 'ù', 'ú', 'û', 'ü', 'ũ', 'ū', 'ŭ', 'ů', 'ű', 'ų', 'ս', 'υ', 'մ', 'ц', 'u', '̲', 'ʊ', 'μ', 'υ', 'ú', 'ṳ', 'ṵ']),
  (('v'), ['v', 'ν', 'ѵ', 'v', 'ԝ', 'ṽ', 'ṿ']),
  (('w'), ['w', 'ŵ', 'ѡ', 'ա', 'ԝ', 'v', 'v', 'ẁ', 'ẃ', 'ẅ']),
  (('x'), ['x', 'х', 'ҳ', '×', 'χ', 'ẋ', 'ẍ']),
  (('y'), ['y', 'ý', 'ÿ', 'ŷ', 'у', 'ү', 'ў', 'ʏ', 'γ', '¥', 'ẏ', 'ỳ']),
  (('z'), ['z', 'ź', 'ż', 'ž', 'ƶ', 'з', 'ʐ', '2', 'ẑ', 'ẓ'])
]

/-- The character class of the optional plural suffix
`(?:[\W_\s]*[sѕ$5zʂ])?` appended by `createWordPattern`. -/
def pluralClass : List Char := ['s', 'ѕ', '$', '5', 'z', 'ʂ']

/-- A character class under the `i` flag: the candidate character
matches if it equals a class member up to (ASCII) case folding. -/
def classMatches (cls : List Char) (c : Char) : Bool :=
  cls.any fun d => d = c || d.toLower = c.toLower

/-- The class produced for one character of the (escaped) word:
`substitutions[char.toLowerCase()]`, falling back to
`[char, char.toLowerCase(), char.toUpperCase()]`. -/
def subClass (c : Char) : List Char :=
  match substitutionTable.find? (fun p => p.1 = c.toLower) with
  | some p => p.2
  | none => [c, c.toLower, c.toUpper]

/-- `word.replace(/[.*+?^${}()|[\]\\]/g, '\\$&')`: the characters the
escape step prefixes with a backslash.  In the alphanumeric branch the
ESCAPED string is what gets split into characters, so the inserted
backslashes become character classes of their own (a quirk of the
source; none of the words considered here contain such characters). -/
def isRegexSpecial (c : Char) : Bool :=
  c ∈ ['.', '*', '+', '?', '^', '$', '\x7b', '\x7d', '(', ')', '|', '[', ']', '\\']

def escapeRegex (cs : List Char) : List Char :=
  cs.flatMap fun c => if isRegexSpecial c then ['\\', c] else [c]

/-! ## The pattern family built by `createWordPattern`

For a word containing at least one ASCII alphanumeric character the
pattern is

  `(?:^|\b|[^a-zA-Z0-9])(C₁ [\W_\s]* C₂ … Cₙ (?:[\W_\s]*[sѕ$5zʂ])?)(?:$|\b|[^a-zA-Z0-9])`

with `Cᵢ` the substitution class of the i-th character of the escaped
word; for a word with no alphanumeric character the group is the word
matched literally (no separators, no plural suffix). -/

inductive WordPattern where
  | literalPat (chars : List Char)
  | obfPat (classes : List (List Char))
deriving DecidableEq, Repr

def createWordPattern (word : String) : WordPattern :=
  if word.data.any isAsciiAlnum then
    .obfPat ((escapeRegex word.data).map subClass)
  else
    .literalPat word.data

/-! ## The backtracking matcher -/

/-- Is `i` a `\b` word boundary of `cs` (with `\w = [A-Za-z0-9_]`)? -/
def wordAt (cs : List Char) (i : Nat) : Bool :=
  match cs.get? i with
  | some c => isWordChar c
  | none => false

def isBoundary (cs : List Char) (i : Nat) : Bool :=
  (if i = 0 then false else wordAt cs (i - 1)) != wordAt cs i

/-- Number of consecutive separator (`[\W_\s]`) characters at `i`. -/
def sepRunLen (cs : List Char) (i : Nat) : Nat :=
  ((cs.drop i).takeWhile isSepChar).length

/-- First-success search over `n, n-1, …, 0` — the backtracking order
of a greedy star over a single-character class. -/
def tryDesc {α : Type} (f : Nat → Option α) : Nat → Option α
  | 0 => f 0
  | n + 1 => (f (n + 1)).orElse fun _ => tryDesc f n

/-- Greedy `[\W_\s]*` at `i`, continuing with `k` at the position after
the consumed run (longest run first, backtracking run by run). -/
def matchSeps {α : Type} (cs : List Char) (i : Nat) (k : Nat → Option α) : Option α :=
  tryDesc (fun j => k (i + j)) (sepRunLen cs i)

/-- The class sequence `C₁ [\W_\s]* C₂ … Cₙ` starting at `i`. -/
def matchClasses {α : Type} (cs : List Char) : List (List Char) → Nat → (Nat → Option α) → Option α
  | [], i, k => k i
  | [cls], i, k =>
    match cs.get? i with
    | some c => if classMatches cls c then k (i + 1) else none
    | none => none
  | cls :: rest, i, k =>
    match cs.get? i with
    | some c =>
      if classMatches cls c then matchSeps cs (i + 1) (fun j => matchClasses cs rest j k)
      else none
    | none => none

/-- The capture group of the alphanumeric branch: the classes followed
by the greedy optional plural part `(?:[\W_\s]*[sѕ$5zʂ])?`. -/
def matchCoreObf {α : Type} (cs : List Char) (classes : List (List Char)) (i : Nat)
    (k : Nat → Option α) : Option α :=
  matchClasses cs classes i fun j =>
    (matchSeps cs j fun j2 =>
      match cs.get? j2 with
      | some c => if classMatches pluralClass c then k (j2 + 1) else none
      | none => none).orElse
    fun _ => k j

/-- The capture group of the non-alphanumeric branch: the word matched
literally (still under the `i` flag). -/
def matchCoreLit {α : Type} (cs : List Char) : List Char → Nat → (Nat → Option α) → Option α
  | [], i, k => k i
  | c :: rest, i, k =>
    match cs.get? i with
    | some d =>
      if (c = d || c.toLower = d.toLower : Bool) then matchCoreLit cs rest (i + 1) k else none
    | none => none

/-- The trailing anchor `(?:$|\b|[^a-zA-Z0-9])` at `e`, returning the
end of the whole match (alternatives tried in order). -/
def trySuffix (cs : List Char) (e : Nat) : Option Nat :=
  if e = cs.length then some e
  else if isBoundary cs e then some e
  else
    match cs.get? e with
    | some c => if !isAsciiAlnum c then some (e + 1) else none
    | none => none

def coreAt (cs : List Char) (pat : WordPattern) (g1s : Nat) : Option (Nat × Nat × Nat) :=
  match pat with
  | .literalPat chars =>
    matchCoreLit cs chars g1s fun g1e => (trySuffix cs g1e).map fun e => (e, g1s, g1e)
  | .obfPat classes =>
    matchCoreObf cs classes g1s fun g1e => (trySuffix cs g1e).map fun e => (e, g1s, g1e)

/-- One match attempt with `match.index = s`: the leading anchor
`(?:^|\b|[^a-zA-Z0-9])` (alternatives in order, with backtracking into
the third), then the capture group, then the trailing anchor.  Returns
`(end of match[0], capture start, capture end)`. -/
def attemptAt (cs : List Char) (pat : WordPattern) (s : Nat) : Option (Nat × Nat × Nat) :=
  ((if s = 0 then coreAt cs pat s else none).orElse fun _ =>
    if isBoundary cs s then coreAt cs pat s else none).orElse fun _ =>
      match cs.get? s with
      | some c => if !isAsciiAlnum c then coreAt cs pat (s + 1) else none
      | none => none

/-- Leftmost match with start position `≥ start`:
`(s, end, capture start, capture end)`. -/
def searchFrom (cs : List Char) (pat : WordPattern) (start : Nat) :
    Option (Nat × Nat × Nat × Nat) :=
  (List.range' start (cs.length + 1 - start)).findSome? fun s =>
    (attemptAt cs pat s).map fun r => (s, r)

/-- The `while ((match = pattern.exec(content)) !== null)` loop:
successive matches with `lastIndex` advancing to each match end.  The
fuel is `cs.length + 2`, enough because every match of a nonempty word
is nonempty, so `lastIndex` strictly increases.  (For the empty word
the source loop would not terminate — `match[0]` can be empty and
`exec` then rematches at the same index forever; the model stops
instead of diverging.) -/
def execAll (cs : List Char) (pat : WordPattern) : Nat → Nat → List (Nat × Nat × Nat × Nat)
  | 0, _ => []
  | fuel + 1, lastIdx =>
    match searchFrom cs pat lastIdx with
    | none => []
    | some r => r :: (if r.1 < r.2.1 then execAll cs pat fuel r.2.1 else [])

/-- `hay.indexOf(need)` on character lists (first index at which `need`
occurs; the callers below only use it when `need` does occur). -/
def firstIdxOf (hay need : List Char) : Nat :=
  ((List.range (hay.length + 1)).find? fun i => need.isPrefixOf (hay.drop i)).getD hay.length

def listSlice (cs : List Char) (s e : Nat) : List Char :=
  (cs.take e).drop s

/-! ## Data model

`WordSeverity` and `ModerationLevel` from the type-definition module
(`WTF` is the "extreme" tier; the `OFF < RELAXED < MODERATE < STRICT`
order and the per-level blocked sets are as documented there). -/

inductive WordSeverity where
  | mild
  | moderate
  | severe
  | wtf
deriving DecidableEq, Repr

inductive ModerationLevel where
  | off
  | relaxed
  | moderate
  | strict
deriving DecidableEq, Repr

/-- A library entry.  `addWord` always stores a concrete `variants`
list (`variants || []`), so the field is modelled as a plain list;
`alternatives` is stored exactly as passed and may be absent. -/
structure WordEntry where
  word : String
  severity : WordSeverity
  alternatives : Option (List String)
  variants : List String
deriving DecidableEq, Repr

structure Match where
  word : String
  severity : WordSeverity
  position : Nat
deriving DecidableEq, Repr

structure ModerationResult where
  isClean : Bool
  foundWords : List String
  severity : Option WordSeverity
  sanitized : String
  /-- The `matches` field of the source result object (`matches` is a
  Lean keyword, hence the prime). -/
  matches' : List Match
deriving DecidableEq, Repr

/-- The mutable fields of a `ProfanityGuard` instance.  The word
library is a JS `Map` in insertion order. -/
structure EngineState where
  moderationLevel : ModerationLevel
  wordLibrary : List (String × WordEntry)
  censorChar : String
deriving DecidableEq, Repr

/-! ## Word-library operations (`Map` model and the library methods) -/

/-- `Map.get(k)`: exact-key lookup. -/
def mapGet? : List (String × WordEntry) → String → Option WordEntry
  | [], _ => none
  | (k, v) :: rest, w => if k = w then some v else mapGet? rest w

/-- `Map.set(k, v)`: overwrite in place, else append. -/
def mapSet : List (String × WordEntry) → String → WordEntry → List (String × WordEntry)
  | [], k, v => [(k, v)]
  | (k', v') :: rest, k, v =>
    if k' = k then (k', v) :: rest else (k', v') :: mapSet rest k v

/-- `Map.delete(k)`. -/
def mapDelete : List (String × WordEntry) → String → List (String × WordEntry)
  | [], _ => []
  | (k', v') :: rest, k => if k' = k then rest else (k', v') :: mapDelete rest k

/-- `addWord(word, severity, alternatives?, variants?)`: keyed and
stored lowercased, `variants` defaulted to `[]`. -/
def addWordL (lib : List (String × WordEntry)) (word : String) (severity : WordSeverity)
    (alternatives : Option (List String)) (variants : Option (List String)) :
    List (String × WordEntry) :=
  mapSet lib (toLowerStr word)
    { word := toLowerStr word, severity := severity, alternatives := alternatives,
      variants := variants.getD [] }

def addWord (st : EngineState) (word : String) (severity : WordSeverity)
    (alternatives : Option (List String)) (variants : Option (List String)) : EngineState :=
  { st with wordLibrary := addWordL st.wordLibrary word severity alternatives variants }

/-- `addWords(entries)`: `entries.forEach(e => addWord(e.word,
e.severity, e.alternatives))` — note the `variants` of the supplied
entry is NOT forwarded. -/
def addWordsL (lib : List (String × WordEntry)) (entries : List WordEntry) :
    List (String × WordEntry) :=
  entries.foldl (fun l e => addWordL l e.word e.severity e.alternatives none) lib

def addWords (st : EngineState) (entries : List WordEntry) : EngineState :=
  { st with wordLibrary := addWordsL st.wordLibrary entries }

def importLibrary (st : EngineState) (jsonData : List WordEntry) : EngineState :=
  addWords st jsonData

def exportLibrary (st : EngineState) : List WordEntry :=
  st.wordLibrary.map Prod.snd

def clearLibrary (st : EngineState) : EngineState :=
  { st with wordLibrary := [] }

def removeWord (st : EngineState) (word : String) : EngineState :=
  { st with wordLibrary := mapDelete st.wordLibrary (toLowerStr word) }

def setModerationLevel (st : EngineState) (level : ModerationLevel) : EngineState :=
  { st with moderationLevel := level }

def getModerationLevel (st : EngineState) : ModerationLevel :=
  st.moderationLevel

def hasWord (st : EngineState) (word : String) : Bool :=
  (mapGet? st.wordLibrary (toLowerStr word)).isSome

def getWordInfo (st : EngineState) (word : String) : Option WordEntry :=
  mapGet? st.wordLibrary (toLowerStr word)

/-- `initializeDefaultLibrary`, called by the constructor: the default
words in source order. -/
def initializeDefaultLibrary (st : EngineState) : EngineState :=
  let st := addWord st ("damn") .mild (some [("darn"), ("dang")]) none
  let st := addWord st ("hell") .mild (some [("heck")]) none
  let st := addWord st ("crap") .mild (some [("crud")]) none
  let st := addWord st ("piss") .mild (some [("ticked")]) none
  let st := addWord st ("shit") .moderate (some [("shoot"), ("crap")]) none
  let st := addWord st ("ass") .moderate (some [("butt")]) none
  let st := addWord st ("bitch") .moderate (some [("jerk")]) none
  let st := addWord st ("bastard") .moderate (some [("jerk")]) none
  let st := addWord st ("fuck") .severe (some [("fudge"), ("heck")]) none
  let st := addWord st ("kys") .wtf none none
  st

/-- `new ProfanityGuard(moderationLevel, censorChar)` (the TS defaults
are `MODERATE` and `"*"`). -/
def mkProfanityGuard (moderationLevel : ModerationLevel) (censorChar : String) : EngineState :=
  initializeDefaultLibrary
    { moderationLevel := moderationLevel, wordLibrary := [], censorChar := censorChar }

/-! ## Level gating and severity ranking -/

/-- `shouldBlock`: which severities the current level blocks. -/
def shouldBlock (level : ModerationLevel) (severity : WordSeverity) : Bool :=
  match level with
  | .off => false
  | .relaxed => severity ∈ [WordSeverity.severe, WordSeverity.wtf]
  | .moderate => severity ∈ [WordSeverity.moderate, WordSeverity.severe, WordSeverity.wtf]
  | .strict =>
    severity ∈ [WordSeverity.mild, WordSeverity.moderate, WordSeverity.severe, WordSeverity.wtf]

def getSeverityRank (severity : WordSeverity) : Nat :=
  match severity with
  | .mild => 1
  | .moderate => 2
  | .severe => 3
  | .wtf => 4

/-- `getAllWordsToCheck`: the entry's word plus its variants. -/
def getAllWordsToCheck (entry : WordEntry) : List String :=
  entry.word :: (if entry.variants.length > 0 then entry.variants else [])

/-! ## The scan of `moderate` -/

/-- A stable insertion sort (JS `Array.prototype.sort` is stable).
`before y x = true` keeps the already-placed element `y` in front of
the element `x` being inserted. -/
def insertIf {α : Type} (before : α → α → Bool) (x : α) : List α → List α
  | [] => [x]
  | y :: ys => if before y x then y :: insertIf before x ys else x :: y :: ys

def isortBy {α : Type} (before : α → α → Bool) (l : List α) : List α :=
  l.foldr (insertIf before) []

/-- The candidate `(word-or-variant, entry)` pairs whose severity is
blocked, in library iteration order. -/
def wordsToCheckOf (st : EngineState) : List (String × WordEntry) :=
  ((st.wordLibrary.map Prod.snd).filter fun e => shouldBlock st.moderationLevel e.severity).flatMap
    fun e => (getAllWordsToCheck e).map fun w => (w, e)

/-- The candidates sorted by word length, longest first (stable, like
the JS comparator `b.word.length - a.word.length`). -/
def sortedWordsOf (st : EngineState) : List (String × WordEntry) :=
  isortBy (fun y x => x.1.length < y.1.length) (wordsToCheckOf st)

/-- The raw occurrences one pattern produces on the content, as the
source computes them: the matched word is capture group 1, and
`matchStart = match.index + match[0].indexOf(matchedWord)`. -/
def patMatches (cs : List Char) (pat : WordPattern) (sev : WordSeverity) : List Match :=
  (execAll cs pat (cs.length + 2) 0).map fun r =>
    let m0 := listSlice cs r.1 r.2.1
    let g1 := listSlice cs r.2.2.1 r.2.2.2
    { word := String.mk g1, severity := sev, position := r.1 + firstIdxOf m0 g1 }

/-- All raw occurrences, in the order the two nested source loops
visit them (the `exec` loop is independent of the censoring state, so
the nesting flattens to this concatenation). -/
def rawMatchesOf (st : EngineState) (cs : List Char) : List Match :=
  (sortedWordsOf st).flatMap fun p => patMatches cs (createWordPattern p.1) p.2.severity

/-- `isPositionCensored`: does `[s, e)` clash with a consumed range —
left end inside, right end inside, or containment. -/
def isPositionCensored (ranges : List (Nat × Nat)) (s e : Nat) : Bool :=
  ranges.any fun c =>
    (c.1 ≤ s ∧ s < c.2 : Prop) || (c.1 < e ∧ e ≤ c.2 : Prop) || (s ≤ c.1 ∧ c.2 ≤ e : Prop)

/-- The accumulator of the scan loop.  (`foundWTFs` is also tracked by
the source but never read afterwards, so it is omitted.) -/
structure ScanSt where
  foundWords : List String
  matches' : List Match
  maxSeverity : Option WordSeverity
  censoredRanges : List (Nat × Nat)

def initScan : ScanSt :=
  { foundWords := [], matches' := [], maxSeverity := none, censoredRanges := [] }

/-- One accepted-or-skipped occurrence of the scan loop. -/
def scanStep (st : ScanSt) (m : Match) : ScanSt :=
  let s := m.position
  let e := m.position + m.word.length
  if isPositionCensored st.censoredRanges s e then st
  else
    { foundWords := st.foundWords ++ [m.word]
      matches' := st.matches' ++ [m]
      maxSeverity :=
        match st.maxSeverity with
        | none => some m.severity
        | some ms =>
          if getSeverityRank ms < getSeverityRank m.severity then some m.severity else some ms
      censoredRanges := st.censoredRanges ++ [(s, e)] }

def scanOf (st : EngineState) (cs : List Char) : ScanSt :=
  (rawMatchesOf st cs).foldl scanStep initScan

/-! ## `moderate` and its derived operations -/

/-- `Array.from(new Set(xs))`: deduplicate keeping first occurrences. -/
def dedupFirstAux (seen : List String) : List String → List String
  | [] => []
  | x :: xs => if x ∈ seen then dedupFirstAux seen xs else x :: dedupFirstAux (x :: seen) xs

def dedupFirst (l : List String) : List String :=
  dedupFirstAux [] l

/-- `censorChar.repeat(n)` (the censor string may be multi-character,
exactly as in JS). -/
def repChars (s : List Char) (n : Nat) : List Char :=
  (List.replicate n s).flatten

/-- `str.slice(0, pos) + rep + str.slice(pos + len)`. -/
def splice (acc : List Char) (pos len : Nat) (rep : List Char) : List Char :=
  acc.take pos ++ rep ++ acc.drop (pos + len)

/-- `matches.sort((a, b) => b.position - a.position)` — the in-place
descending re-sort used both to censor right-to-left and as input of
the final ascending sort. -/
def sortedDescOf (st : EngineState) (cs : List Char) : List Match :=
  isortBy (fun y x => x.position < y.position) (scanOf st cs).matches'

/-- The censoring pass: each match's span replaced by
`censorChar.repeat(match.word.length)`, applied in descending position
order. -/
def sanitizedOf (st : EngineState) (cs : List Char) : List Char :=
  (sortedDescOf st cs).foldl
    (fun acc m => splice acc m.position m.word.length (repChars st.censorChar.data m.word.length))
    cs

def moderate (st : EngineState) (content : String) : ModerationResult :=
  if st.wordLibrary.length = 0 ∨ st.moderationLevel = ModerationLevel.off then
    { isClean := true, foundWords := [], severity := none, sanitized := content, matches' := [] }
  else
    { isClean := decide ((scanOf st content.data).foundWords.length = 0)
      foundWords := dedupFirst (scanOf st content.data).foundWords
      severity := (scanOf st content.data).maxSeverity
      sanitized := String.mk (sanitizedOf st content.data)
      matches' := isortBy (fun y x => y.position < x.position) (sortedDescOf st content.data) }

def isClean (st : EngineState) (content : String) : Bool :=
  (moderate st content).isClean

def sanitize (st : EngineState) (content : String) : String :=
  (moderate st content).sanitized

/-- State-passing form of `moderate`: the method body reads
`this.wordLibrary`, `this.moderationLevel` and `this.censorChar` but
contains no assignment to any instance field (every mutation in it is
on locals), so the post-state is the pre-state. -/
def moderateStateful (st : EngineState) (content : String) : ModerationResult × EngineState :=
  (moderate st content, st)

/-- `moderateSentence(sentence, preserveStructure)`. -/
def moderateSentence (st : EngineState) (sentence : String) (preserveStructure : Bool) :
    ModerationResult :=
  let result := moderate st sentence
  if preserveStructure && !result.isClean then
    let sortedMatches := isortBy (fun y x => x.position < y.position) result.matches'
    let sanitized := sortedMatches.foldl
      (fun acc m =>
        let matchedEntry := (st.wordLibrary.map Prod.snd).find? fun e =>
          (getAllWordsToCheck e).any fun w => toLowerStr w = toLowerStr m.word
        let replacement :=
          match matchedEntry with
          | some e =>
            match e.alternatives with
            | some (a :: _) => a.data
            | _ => repChars st.censorChar.data m.word.length
          | none => repChars st.censorChar.data m.word.length
        splice acc m.position m.word.length replacement)
      sentence.data
    { result with sanitized := String.mk sanitized }
  else result

/-! ## `getProfanityScore` -/

/-- `content.split(/\s+/)`: fields between maximal whitespace runs.
A leading (trailing) run contributes an empty first (last) field, and
the empty string splits to `[""]`, exactly as in JS. -/
def splitWsAux (cs : List Char) (cur : List Char) : List (List Char) :=
  match cs with
  | [] => [cur.reverse]
  | c :: rest =>
    if isJsWs c then cur.reverse :: splitWsAux (rest.dropWhile isJsWs) []
    else splitWsAux rest (c :: cur)
termination_by cs.length
decreasing_by
  · exact Nat.lt_succ_of_le (List.Sublist.length_le (List.dropWhile_sublist _))
  · exact Nat.lt_succ_self _

def jsSplitWs (cs : List Char) : List (List Char) :=
  splitWsAux cs []

/-- Number of maximal whitespace runs in `cs`. -/
def sepRuns (cs : List Char) : Nat :=
  match cs with
  | [] => 0
  | c :: rest =>
    if isJsWs c then 1 + sepRuns (rest.dropWhile isJsWs) else sepRuns rest
termination_by cs.length
decreasing_by
  · exact Nat.lt_succ_of_le (List.Sublist.length_le (List.dropWhile_sublist _))
  · exact Nat.lt_succ_self _

/-- Number of whitespace-delimited words of `cs`: maximal nonempty
runs of non-whitespace characters.  This is the definition the spec's
phrase "whitespace-delimited word count" denotes. -/
def wsTokenCount (cs : List Char) : Nat :=
  match cs with
  | [] => 0
  | c :: rest =>
    if isJsWs c then wsTokenCount rest
    else 1 + wsTokenCount (rest.dropWhile fun d => !(isJsWs d))
termination_by cs.length
decreasing_by
  · exact Nat.lt_succ_self _
  · exact Nat.lt_succ_of_le (List.Sublist.length_le (List.dropWhile_sublist _))

/-- Modelled from the spec: "whitespace-delimited word count of the
input", the score denominator the claim asserts. -/
def specWhitespaceWordCount (content : String) : Nat :=
  wsTokenCount content.data

/-- Does `cs` start with a whitespace character? -/
def headWs (cs : List Char) : Bool :=
  match cs.head? with
  | some c => isJsWs c
  | none => false

/-- Does `cs` end with a whitespace character? -/
def trailWs : List Char → Bool
  | [] => false
  | [c] => isJsWs c
  | _ :: rest => trailWs rest

/-- The number of fields `split(/\s+/)` yields, characterized without
mentioning the split: the word count, plus one empty field for a
leading whitespace run and one for a trailing one, and one field for
the empty string. -/
def wsFieldCount (cs : List Char) : Nat :=
  if cs = [] then 1
  else wsTokenCount cs + (headWs cs).toNat + (trailWs cs).toNat

/-- The per-severity point values of `getProfanityScore`. -/
def severityPoints (severity : WordSeverity) : Nat :=
  match severity with
  | .mild => 10
  | .moderate => 25
  | .severe => 50
  | .wtf => 100

def sumPointsFold (ms : List Match) : Nat :=
  ms.foldl (fun acc m => acc + severityPoints m.severity) 0

/-- `Math.round` on the (nonnegative, exactly represented) score:
round half toward positive infinity. -/
def jsRound (q : ℚ) : Int :=
  ⌊q + 1 / 2⌋

/-- `getProfanityScore(content)`.  The arithmetic is modelled exactly
over `ℚ` (the JS doubles involved are only compared against the same
formula, and the claims are stated over exact arithmetic).
`scoreWordCount` is `content.split(/\s+/).length || 1`. -/
def scoreWordCount (content : String) : Nat :=
  if (jsSplitWs content.data).length = 0 then 1 else (jsSplitWs content.data).length

def getProfanityScore (st : EngineState) (content : String) : Int :=
  if (moderate st content).isClean then 0
  else
    jsRound (min 100
      (((sumPointsFold (moderate st content).matches' : ℚ) / (scoreWordCount content : ℚ)) * 10))

/-! ## Concrete engine states used by the theorems -/

/-- A freshly constructed engine: `new ProfanityGuard()` (default
level `MODERATE`, default censor `"*"`). -/
def defaultGuard : EngineState :=
  mkProfanityGuard .moderate ("*")

/-- A freshly constructed engine at `STRICT`. -/
def strictGuard : EngineState :=
  mkProfanityGuard .strict ("*")

/-- Default engine switched off. -/
def offGuard : EngineState :=
  setModerationLevel defaultGuard .off

/-- Default engine with the library cleared. -/
def emptyLibGuard : EngineState :=
  clearLibrary defaultGuard

/-- A two-word library exhibiting non-monotonicity of the match set
in the moderation level: a MILD word `"a-b"` (only scanned at STRICT)
that overlaps the MODERATE word `"b"`. -/
def overlapGuard : EngineState :=
  addWord (addWord (clearLibrary defaultGuard) ("a-b") .mild none none) ("b") .moderate none none

def overlapGuardModerate : EngineState :=
  setModerationLevel overlapGuard .moderate

def overlapGuardStrict : EngineState :=
  setModerationLevel overlapGuard .strict

/-! ## Definitions used by the statements and proofs of the claims -/

def matchRange (m : Match) : Nat × Nat :=
  (m.position, m.position + m.word.length)

def disjointMatches (m1 m2 : Match) : Prop :=
  ¬ ∃ k, (m1.position ≤ k ∧ k < m1.position + m1.word.length) ∧
         (m2.position ≤ k ∧ k < m2.position + m2.word.length)

def ScanInv (s : ScanSt) : Prop :=
  s.matches'.Pairwise disjointMatches ∧ ∀ m ∈ s.matches', matchRange m ∈ s.censoredRanges


/-- The entry as (re)stored by `addWords`/`importLibrary`: key and
`word` lowercased, `alternatives` kept, `variants` reset to `[]`. -/
def normAddedEntry (e : WordEntry) : WordEntry :=
  { word := toLowerStr e.word, severity := e.severity, alternatives := e.alternatives,
    variants := [] }

/-- Well-formedness of a reachable library: keys are distinct, each
entry's `word` equals its key, and keys are lowercase. -/
def WF (lib : List (String × WordEntry)) : Prop :=
  (lib.map Prod.fst).Nodup ∧ ∀ p ∈ lib, p.2.word = p.1 ∧ toLowerStr p.1 = p.1


def c4Input : String := "shit a b c d e f g h i "


/-- The import used by the C10 witness: an entry supplied with a
nonempty `variants` list. -/
def c10Entry : WordEntry :=
  { word := ("Zounds"), severity := .mild, alternatives := some [("gosh")],
    variants := [("z0unds")] }

/-! ## Theorems -/

theorem disjointMatches_symm : Symmetric disjointMatches :=
  fun _ _ h ⟨k, a, b⟩ => h ⟨k, b, a⟩

theorem insertIf_perm {α : Type} (bf : α → α → Bool) (x : α) :
    ∀ l : List α, (insertIf bf x l).Perm (x :: l)
  | [] => List.Perm.refl _
  | y :: ys => by
    rw [insertIf]
    split
    · exact ((insertIf_perm bf x ys).cons y).trans (List.Perm.swap x y ys)
    · exact List.Perm.refl _

theorem isortBy_perm {α : Type} (bf : α → α → Bool) :
    ∀ l : List α, (isortBy bf l).Perm l
  | [] => List.Perm.refl _
  | x :: xs =>
    (insertIf_perm bf x (isortBy bf xs)).trans ((isortBy_perm bf xs).cons x)

theorem isPositionCensored_false {ranges : List (Nat × Nat)} {s e : Nat}
    (h : isPositionCensored ranges s e = false) :
    ∀ c ∈ ranges, ¬(c.1 ≤ s ∧ s < c.2) ∧ ¬(c.1 < e ∧ e ≤ c.2) ∧ ¬(s ≤ c.1 ∧ c.2 ≤ e) := by
  intro c hc
  simp only [isPositionCensored, List.any_eq_false, Bool.or_eq_true, decide_eq_true_eq] at h
  have := h c hc
  tauto

theorem scanStep_inv {s : ScanSt} {m : Match} (h : ScanInv s) : ScanInv (scanStep s m) := by
  rw [scanStep]
  split
  · exact h
  next hguard =>
    have hneg := isPositionCensored_false (Bool.of_not_eq_true hguard)
    constructor
    · rw [List.pairwise_append]
      refine ⟨h.1, List.pairwise_singleton _ _, ?_⟩
      intro a ha b hb
      simp only [List.mem_singleton] at hb
      subst hb
      have hr := hneg (matchRange a) (h.2 a ha)
      rintro ⟨k, ⟨hk1, hk2⟩, hk3, hk4⟩
      simp only [matchRange] at hr
      omega
    · intro m' hm'
      simp only [List.mem_append, List.mem_singleton] at hm' ⊢
      rcases hm' with hm' | hm'
      · exact Or.inl (h.2 m' hm')
      · subst hm'; exact Or.inr rfl

theorem foldl_scan_inv (raws : List Match) :
    ∀ s : ScanSt, ScanInv s → ScanInv (raws.foldl scanStep s) := by
  induction raws with
  | nil => intro s h; exact h
  | cons r rs ih => intro s h; exact ih _ (scanStep_inv h)

theorem scanOf_pairwise (st : EngineState) (cs : List Char) :
    (scanOf st cs).matches'.Pairwise disjointMatches :=
  (foldl_scan_inv _ initScan ⟨List.Pairwise.nil, by intro m hm; simp [initScan] at hm⟩).1

/-- C1: for every input string and every engine state, no two distinct
matches of `moderate(content)` have intersecting character ranges
`[position, position + word.length)` — no index lies in the ranges of
two different entries of the match list (in particular no partial
overlap and no containment). -/
theorem prof_matches_nonoverlap (st : EngineState) (content : String) :
    (moderate st content).matches'.Pairwise disjointMatches := by
  rw [moderate]
  split
  · exact List.Pairwise.nil
  · have hs := scanOf_pairwise st content.data
    have p1 := isortBy_perm (fun y x : Match => x.position < y.position)
      (scanOf st content.data).matches'
    have p2 := isortBy_perm (fun y x : Match => y.position < x.position)
      (isortBy (fun y x : Match => x.position < y.position) (scanOf st content.data).matches')
    exact ((p2.trans p1).pairwise_iff (fun hxy => disjointMatches_symm hxy)).mpr hs

theorem foldl_scan_len (raws : List Match) :
    ∀ s : ScanSt, s.foundWords.length = s.matches'.length →
      (raws.foldl scanStep s).foundWords.length = (raws.foldl scanStep s).matches'.length := by
  induction raws with
  | nil => intro s h; exact h
  | cons r rs ih =>
    intro s h
    refine ih _ ?_
    rw [scanStep]
    split
    · exact h
    · simp [h]

theorem scanOf_found_len (st : EngineState) (cs : List Char) :
    (scanOf st cs).foundWords.length = (scanOf st cs).matches'.length :=
  foldl_scan_len _ initScan rfl

theorem moderate_clean_matches {st : EngineState} {content : String}
    (h : (moderate st content).isClean = true) : (moderate st content).matches' = [] := by
  by_cases hc : st.wordLibrary.length = 0 ∨ st.moderationLevel = ModerationLevel.off
  · rw [moderate, if_pos hc]
  · rw [moderate, if_neg hc] at h ⊢
    have h0 : (scanOf st content.data).foundWords.length = 0 := of_decide_eq_true h
    have hm : (scanOf st content.data).matches' = [] :=
      List.length_eq_zero.mp ((scanOf_found_len st content.data).symm.trans h0)
    show isortBy _ (sortedDescOf st content.data) = []
    rw [sortedDescOf, hm]
    rfl

theorem moderate_clean_sanitized {st : EngineState} {content : String}
    (h : (moderate st content).isClean = true) : (moderate st content).sanitized = content := by
  by_cases hc : st.wordLibrary.length = 0 ∨ st.moderationLevel = ModerationLevel.off
  · rw [moderate, if_pos hc]
  · rw [moderate, if_neg hc] at h ⊢
    have h0 : (scanOf st content.data).foundWords.length = 0 := of_decide_eq_true h
    have hm : (scanOf st content.data).matches' = [] :=
      List.length_eq_zero.mp ((scanOf_found_len st content.data).symm.trans h0)
    show String.mk (sanitizedOf st content.data) = content
    rw [sanitizedOf, sortedDescOf, hm]
    rfl

theorem mapSet_not_mem {k : String} {v : WordEntry} :
    ∀ {lib : List (String × WordEntry)}, k ∉ lib.map Prod.fst → mapSet lib k v = lib ++ [(k, v)]
  | [], _ => rfl
  | (k', v') :: rest, h => by
    rw [mapSet]
    have hk : k' ≠ k := by
      intro he; exact h (by simp [he])
    rw [if_neg hk, mapSet_not_mem (by intro hm; exact h (by simp [hm]))]
    simp

theorem mapGet?_mapSet_self (lib : List (String × WordEntry)) (k : String) (v : WordEntry) :
    mapGet? (mapSet lib k v) k = some v := by
  induction lib with
  | nil => simp [mapSet, mapGet?]
  | cons p rest ih =>
    rw [mapSet]
    split
    next he => rw [mapGet?, if_pos he]
    next he => rw [mapGet?, if_neg he]; exact ih

theorem mapGet?_mapSet_ne {k w : String} (v : WordEntry) (h : k ≠ w) :
    ∀ lib : List (String × WordEntry), mapGet? (mapSet lib k v) w = mapGet? lib w
  | [] => by simp [mapSet, mapGet?, h]
  | (k', v') :: rest => by
    rw [mapSet]
    split
    next he => subst he; rw [mapGet?, mapGet?, if_neg h, if_neg h]
    next he => rw [mapGet?, mapGet?]; split <;> simp [mapGet?_mapSet_ne v h rest]

theorem addWordsL_fresh :
    ∀ (entries : List WordEntry) (lib : List (String × WordEntry)),
      (∀ e ∈ entries, toLowerStr e.word ∉ lib.map Prod.fst) →
      (entries.map fun e => toLowerStr e.word).Nodup →
      addWordsL lib entries = lib ++ entries.map fun e => (toLowerStr e.word, normAddedEntry e)
  | [], lib, _, _ => by simp [addWordsL]
  | e :: es, lib, hfresh, hnd => by
    rw [addWordsL, List.foldl_cons]
    have h1 : addWordL lib e.word e.severity e.alternatives none =
        lib ++ [(toLowerStr e.word, normAddedEntry e)] :=
      mapSet_not_mem (hfresh e (by simp))
    rw [h1]
    have hnd' := (List.nodup_cons.mp hnd)
    have := addWordsL_fresh es (lib ++ [(toLowerStr e.word, normAddedEntry e)])
      (by
        intro e2 he2 hmem
        simp only [List.map_append, List.mem_append] at hmem
        rcases hmem with hm | hm
        · exact hfresh e2 (by simp [he2]) hm
        · simp only [List.map_cons, List.map_nil, List.mem_singleton] at hm
          apply hnd'.1
          show toLowerStr e.word ∈ List.map (fun e => toLowerStr e.word) es
          rw [← hm]
          exact List.mem_map_of_mem (fun e => toLowerStr e.word) he2)
      hnd'.2
    rw [addWordsL] at this
    rw [this]
    simp

theorem mapGet?_addWordsL_not_mem :
    ∀ (es : List WordEntry) (lib : List (String × WordEntry)) (w : String),
      w ∉ es.map (fun e => toLowerStr e.word) →
      mapGet? (addWordsL lib es) w = mapGet? lib w
  | [], _, _, _ => rfl
  | e :: es, lib, w, h => by
    rw [addWordsL, List.foldl_cons]
    have h1 : w ∉ es.map (fun e => toLowerStr e.word) := by
      intro hm; exact h (by simp [hm])
    have h2 : toLowerStr e.word ≠ w := by
      intro he; exact h (by simp [he])
    rw [show (es.foldl (fun l e => addWordL l e.word e.severity e.alternatives none)
        (addWordL lib e.word e.severity e.alternatives none)) =
        addWordsL (addWordL lib e.word e.severity e.alternatives none) es from rfl]
    rw [mapGet?_addWordsL_not_mem es _ w h1]
    exact mapGet?_mapSet_ne _ h2 lib

theorem addWordsL_mem_lookup :
    ∀ (es : List WordEntry) (lib : List (String × WordEntry)) (w : String),
      w ∈ es.map (fun e => toLowerStr e.word) →
      ∃ e2 ∈ es, mapGet? (addWordsL lib es) w = some (normAddedEntry e2) ∧
        toLowerStr e2.word = w
  | [], _, _, h => by simp at h
  | e :: es, lib, w, h => by
    rw [addWordsL, List.foldl_cons]
    rw [show (es.foldl (fun l e => addWordL l e.word e.severity e.alternatives none)
        (addWordL lib e.word e.severity e.alternatives none)) =
        addWordsL (addWordL lib e.word e.severity e.alternatives none) es from rfl]
    by_cases hm : w ∈ es.map (fun e => toLowerStr e.word)
    · obtain ⟨e2, he2, hg, hk⟩ := addWordsL_mem_lookup es _ w hm
      exact ⟨e2, by simp [he2], hg, hk⟩
    · have hw : toLowerStr e.word = w := by
        simp only [List.map_cons, List.mem_cons] at h
        rcases h with h | h
        · exact h.symm
        · exact absurd h hm
      refine ⟨e, by simp, ?_, hw⟩
      rw [mapGet?_addWordsL_not_mem es _ w hm]
      rw [show addWordL lib e.word e.severity e.alternatives none =
        mapSet lib (toLowerStr e.word) (normAddedEntry e) from rfl]
      rw [hw]
      exact mapGet?_mapSet_self lib w (normAddedEntry e)

theorem roundtrip_lookup :
    ∀ (lib : List (String × WordEntry)),
      (∀ p ∈ lib, p.2.word = p.1 ∧ toLowerStr p.1 = p.1) →
      ∀ (w : String) (e : WordEntry), mapGet? lib w = some e →
        mapGet? (lib.map fun p => (toLowerStr p.2.word, normAddedEntry p.2)) w =
          some (normAddedEntry e)
  | [], _, w, e, h => by simp [mapGet?] at h
  | (k, v) :: rest, hwf, w, e, h => by
    have hk : toLowerStr v.word = k := by
      have := hwf (k, v) (by simp)
      rw [this.1, this.2]
    rw [mapGet?] at h
    rw [List.map_cons, mapGet?]
    by_cases he : k = w
    · rw [if_pos (hk.trans he)]
      rw [if_pos he] at h
      obtain rfl := Option.some.inj h
      rfl
    · rw [if_neg (fun hc => he (hk ▸ hc))]
      rw [if_neg he] at h
      exact roundtrip_lookup rest (fun p hp => hwf p (by simp [hp])) w e h

theorem export_keys (lib : List (String × WordEntry))
    (h : ∀ p ∈ lib, p.2.word = p.1 ∧ toLowerStr p.1 = p.1) :
    (lib.map Prod.snd).map (fun e => toLowerStr e.word) = lib.map Prod.fst := by
  rw [List.map_map]
  apply List.map_congr_left
  intro p hp
  have hw := h p hp
  show toLowerStr p.2.word = p.1
  rw [hw.1, hw.2]

theorem roundtrip_library (st : EngineState) (h : WF st.wordLibrary) :
    (importLibrary (clearLibrary st) (exportLibrary st)).wordLibrary =
      st.wordLibrary.map fun p => (toLowerStr p.2.word, normAddedEntry p.2) := by
  show addWordsL [] (st.wordLibrary.map Prod.snd) = _
  rw [addWordsL_fresh (st.wordLibrary.map Prod.snd) [] (by simp)
    (by rw [export_keys st.wordLibrary h.2]; exact h.1)]
  rw [List.nil_append, List.map_map]
  rfl

theorem splitWsAux_length (cs : List Char) :
    ∀ cur : List Char, (splitWsAux cs cur).length = sepRuns cs + 1 := by
  induction cs using sepRuns.induct with
  | case1 => intro cur; simp [splitWsAux, sepRuns]
  | case2 c rest hws ih =>
    intro cur
    rw [splitWsAux, if_pos hws, sepRuns, if_pos hws]
    simp [ih]
    omega
  | case3 c rest hws ih =>
    intro cur
    rw [splitWsAux, if_neg hws, sepRuns, if_neg hws]
    exact ih _

theorem wsTokenCount_dropWhile (cs : List Char) :
    wsTokenCount (cs.dropWhile isJsWs) = wsTokenCount cs := by
  induction cs with
  | nil => rfl
  | cons c rest ih =>
    by_cases h : isJsWs c
    · rw [List.dropWhile_cons_of_pos h, ih, wsTokenCount, if_pos h]
    · rw [List.dropWhile_cons_of_neg h]

theorem trailWs_cons {c : Char} {l : List Char} (h : l ≠ []) : trailWs (c :: l) = trailWs l := by
  cases l with
  | nil => exact absurd rfl h
  | cons d rest => rfl

theorem trailWs_all {l : List Char} (hall : ∀ x ∈ l, isJsWs x) (hne : l ≠ []) :
    trailWs l = true := by
  induction l with
  | nil => exact absurd rfl hne
  | cons c rest ih =>
    cases rest with
    | nil => exact hall c (by simp)
    | cons d rest2 =>
      rw [trailWs_cons (by simp)]
      exact ih (fun x hx => hall x (by simp [hx])) (by simp)

theorem headWs_dropWhile {l : List Char} (h : l.dropWhile isJsWs ≠ []) :
    headWs (l.dropWhile isJsWs) = false := by
  induction l with
  | nil => exact absurd rfl h
  | cons c rest ih =>
    by_cases hc : isJsWs c
    · rw [List.dropWhile_cons_of_pos hc] at h ⊢
      exact ih h
    · rw [List.dropWhile_cons_of_neg hc]
      simp [headWs, hc]

theorem trailWs_dropWhile {l : List Char} (h : l.dropWhile isJsWs ≠ []) :
    trailWs (l.dropWhile isJsWs) = trailWs l := by
  induction l with
  | nil => rfl
  | cons c rest ih =>
    by_cases hc : isJsWs c
    · rw [List.dropWhile_cons_of_pos hc] at h ⊢
      have hrest : rest ≠ [] := by
        intro hr; rw [hr] at h; exact h rfl
      rw [ih h, trailWs_cons hrest]
    · rw [List.dropWhile_cons_of_neg hc]

theorem fields_eq_sepRuns (cs : List Char) (hne : cs ≠ []) :
    wsTokenCount cs + (headWs cs).toNat + (trailWs cs).toNat = sepRuns cs + 1 := by
  induction cs using sepRuns.induct with
  | case1 => exact absurd rfl hne
  | case2 c rest hws ih =>
    rw [sepRuns, if_pos hws]
    have hhead : headWs (c :: rest) = true := by simp [headWs, hws]
    rw [wsTokenCount, if_pos hws, ← wsTokenCount_dropWhile rest, hhead]
    by_cases hrest : rest.dropWhile isJsWs = []
    · have hall : ∀ x ∈ rest, isJsWs x := List.dropWhile_eq_nil_iff.mp hrest
      have htrail : trailWs (c :: rest) = true := trailWs_all
        (fun x hx => (List.mem_cons.mp hx).elim (fun h => h ▸ hws) (fun h => hall x h))
        (by simp)
      rw [hrest, htrail]
      simp [sepRuns, wsTokenCount]
    · have ihr := ih hrest
      rw [headWs_dropWhile hrest] at ihr
      have hrne : rest ≠ [] := by
        intro hr; rw [hr] at hrest; exact hrest rfl
      rw [trailWs_cons hrne, ← trailWs_dropWhile hrest]
      simp only [Bool.toNat_true, Bool.toNat_false] at ihr ⊢
      omega
  | case3 c rest hws ih =>
    rw [sepRuns, if_neg hws, wsTokenCount, if_neg hws]
    have hhead : headWs (c :: rest) = false := by simp [headWs, hws]
    rw [hhead]
    cases hrest : rest with
    | nil =>
      have hc : trailWs [c] = isJsWs c := rfl
      simp [hc, Bool.of_not_eq_true hws, sepRuns, wsTokenCount, List.dropWhile]
    | cons d rest2 =>
      rw [← hrest]
      have hrne : rest ≠ [] := by rw [hrest]; simp
      have ihr := ih hrne
      rw [trailWs_cons hrne]
      by_cases hd : isJsWs d = true
      · have hheadr : headWs rest = true := by rw [hrest]; simp [headWs, hd]
        have hdw : rest.dropWhile (fun x => !(isJsWs x)) = rest := by
          rw [hrest, List.dropWhile_cons_of_neg (by simp [hd])]
        rw [hdw]
        rw [hheadr] at ihr
        simp only [Bool.toNat_true, Bool.toNat_false] at ihr ⊢
        omega
      · have hheadr : headWs rest = false := by
          rw [hrest]; simp [headWs, Bool.of_not_eq_true hd]
        have htok : wsTokenCount rest =
            1 + wsTokenCount (rest.dropWhile fun x => !(isJsWs x)) := by
          conv_lhs => rw [hrest]
          rw [wsTokenCount, if_neg (by simp [Bool.of_not_eq_true hd])]
          rw [hrest, List.dropWhile_cons_of_pos (by simp [Bool.of_not_eq_true hd])]
        rw [hheadr] at ihr
        rw [htok] at ihr
        simp only [Bool.toNat_true, Bool.toNat_false] at ihr ⊢
        omega

theorem jsSplitWs_length_eq (cs : List Char) : (jsSplitWs cs).length = wsFieldCount cs := by
  rw [jsSplitWs, splitWsAux_length cs [], wsFieldCount]
  by_cases h : cs = []
  · subst h; simp [sepRuns]
  · rw [if_neg h, fields_eq_sepRuns cs h]

theorem jsSplitWs_length_ne_zero (cs : List Char) : (jsSplitWs cs).length ≠ 0 := by
  rw [jsSplitWs, splitWsAux_length cs []]
  omega

theorem scoreWordCount_eq (content : String) :
    scoreWordCount content = wsFieldCount content.data := by
  rw [scoreWordCount, if_neg (jsSplitWs_length_ne_zero content.data), jsSplitWs_length_eq]

theorem jsRound_nonneg {q : ℚ} (h : 0 ≤ q) : 0 ≤ jsRound q := by
  rw [jsRound]
  exact Int.le_floor.mpr (by push_cast; linarith)

theorem jsRound_le_hundred {q : ℚ} (h : q ≤ 100) : jsRound q ≤ 100 := by
  rw [jsRound]
  have h2 : (⌊q + 1 / 2⌋ : Int) < 101 := Int.floor_lt.mpr (by push_cast; linarith)
  omega

theorem jsRound_zero : jsRound 0 = 0 := by
  rw [jsRound]
  rw [show (0 : ℚ) + 1 / 2 = 1 / 2 by norm_num]
  rw [Int.floor_eq_zero_iff]
  constructor <;> norm_num

theorem score_formula_eq (st : EngineState) (content : String) :
    getProfanityScore st content =
      jsRound (min 100 ((sumPointsFold (moderate st content).matches' : ℚ) /
        (wsFieldCount content.data : ℚ) * 10)) := by
  rw [getProfanityScore]
  by_cases h : (moderate st content).isClean = true
  · rw [if_pos h, moderate_clean_matches h]
    rw [show sumPointsFold [] = 0 from rfl]
    rw [show ((0 : Nat) : ℚ) / (wsFieldCount content.data : ℚ) * 10 = 0 by norm_num]
    rw [min_eq_right (by norm_num : (0:ℚ) ≤ 100), jsRound_zero]
  · rw [if_neg h, scoreWordCount_eq]

theorem score_nonneg (st : EngineState) (content : String) :
    0 ≤ getProfanityScore st content := by
  rw [getProfanityScore]
  by_cases h : (moderate st content).isClean = true
  · rw [if_pos h]
  · rw [if_neg h]
    refine jsRound_nonneg (le_min (by norm_num) ?_)
    positivity

theorem score_le_hundred (st : EngineState) (content : String) :
    getProfanityScore st content ≤ 100 := by
  rw [getProfanityScore]
  by_cases h : (moderate st content).isClean = true
  · rw [if_pos h]; norm_num
  · rw [if_neg h]
    exact jsRound_le_hundred (min_le_left _ _)

/-- C4 (amended): for every engine state and input, `getProfanityScore`
equals `round(min(100, (P / W) * 10))` where `P` sums the per-severity
points (MILD=10, MODERATE=25, SEVERE=50, EXTREME/WTF=100) over the
matches of `moderate(content)` and `W` is the field count of the JS
split on whitespace runs — the whitespace-delimited word count PLUS
one empty field for a leading whitespace run and one for a trailing
one (and 1 for empty input); the result is an integer between 0 and
100, and 0 on clean input. -/
theorem prof_score_formula (st : EngineState) (content : String) :
    getProfanityScore st content =
      jsRound (min 100 ((sumPointsFold (moderate st content).matches' : ℚ) /
        (wsFieldCount content.data : ℚ) * 10)) ∧
    0 ≤ getProfanityScore st content ∧
    getProfanityScore st content ≤ 100 ∧
    ((moderate st content).isClean = true → getProfanityScore st content = 0) :=
  ⟨score_formula_eq st content, score_nonneg st content, score_le_hundred st content,
    fun h => by rw [getProfanityScore, if_pos h]⟩

theorem prof_score_formula_witness :
    getProfanityScore defaultGuard ("hello") = 0 :=
  (prof_score_formula defaultGuard ("hello")).2.2.2 (by decide)

/-- C4 (counterexample): on a fresh default engine and the input
`"shit a b c d e f g h i "`, the score is 23, but the claimed formula
with `W` the whitespace-delimited word count (10 — the trailing space
adds an 11th, empty, split field that the claim's `W` does not count)
gives 25. -/
theorem prof_score_claim_counterexample :
    getProfanityScore defaultGuard c4Input ≠
      jsRound (min 100 ((sumPointsFold (moderate defaultGuard c4Input).matches' : ℚ) /
        (specWhitespaceWordCount c4Input : ℚ) * 10)) := by
  have hm : (moderate defaultGuard c4Input).matches' =
      [⟨("shit"), .moderate, 0⟩] := by decide
  have hcl : (moderate defaultGuard c4Input).isClean = false := by decide
  have hs : getProfanityScore defaultGuard c4Input = 23 := by
    rw [getProfanityScore, if_neg (by rw [hcl]; simp), hm]
    rw [show scoreWordCount c4Input = 11 from by
      simp +decide [scoreWordCount, jsSplitWs, splitWsAux, c4Input]]
    rw [show sumPointsFold [(⟨("shit"), .moderate, 0⟩ : Match)] = 25 from rfl]
    rw [show ((25 : Nat) : ℚ) / ((11 : Nat) : ℚ) * 10 = 250 / 11 by norm_num]
    rw [min_eq_right (by norm_num : (250 : ℚ) / 11 ≤ 100)]
    rw [jsRound, show (250 : ℚ) / 11 + 1 / 2 = 511 / 22 by norm_num]
    rw [Int.floor_eq_iff]
    constructor <;> norm_num
  have hc : jsRound (min 100 ((sumPointsFold (moderate defaultGuard c4Input).matches' : ℚ) /
      (specWhitespaceWordCount c4Input : ℚ) * 10)) = 25 := by
    rw [hm, show specWhitespaceWordCount c4Input = 10 from by
      simp +decide [specWhitespaceWordCount, wsTokenCount, c4Input]]
    rw [show sumPointsFold [(⟨("shit"), .moderate, 0⟩ : Match)] = 25 from rfl]
    rw [show ((25 : Nat) : ℚ) / ((10 : Nat) : ℚ) * 10 = 25 by norm_num]
    rw [min_eq_right (by norm_num : (25 : ℚ) ≤ 100)]
    rw [jsRound, show (25 : ℚ) + 1 / 2 = 51 / 2 by norm_num]
    rw [Int.floor_eq_iff]
    constructor <;> norm_num
  rw [hs, hc]
  decide


/-- C2 (counterexample): match sets are not monotone in the level.
With the library `{"a-b" ↦ MILD, "b" ↦ MODERATE}` on input `"a-b"`,
the match `("b", MODERATE, 2)` is produced at level MODERATE but not
at STRICT, where the longer, MILD word `"a-b"` (scanned only at
STRICT, and first, being longest) consumes the range `[0, 3)`. -/
theorem prof_level_monotonicity_counterexample :
    (⟨("b"), .moderate, 2⟩ : Match) ∈ (moderate overlapGuardModerate ("a-b")).matches' ∧
    (⟨("b"), .moderate, 2⟩ : Match) ∉ (moderate overlapGuardStrict ("a-b")).matches' := by
  constructor <;> decide

/-- C2 (amended): what is monotone in the moderation level is the
severity gating — OFF blocks nothing, and every severity blocked at
RELAXED is blocked at MODERATE, every severity blocked at MODERATE is
blocked at STRICT — and at OFF the match set is always empty.  (The
match sets themselves need not be nested: see the counterexample.) -/
theorem prof_level_gating_monotone :
    (∀ sev : WordSeverity, shouldBlock .off sev = false) ∧
    (∀ sev : WordSeverity, shouldBlock .relaxed sev = true → shouldBlock .moderate sev = true) ∧
    (∀ sev : WordSeverity, shouldBlock .moderate sev = true → shouldBlock .strict sev = true) ∧
    (∀ (st : EngineState) (content : String), st.moderationLevel = ModerationLevel.off →
      (moderate st content).matches' = []) := by
  refine ⟨fun sev => rfl, ?_, ?_, ?_⟩
  · intro sev h; cases sev <;> simp_all [shouldBlock]
  · intro sev h; cases sev <;> simp_all [shouldBlock]
  · intro st content h
    rw [moderate, if_pos (Or.inr h)]

theorem prof_level_gating_monotone_witness :
    shouldBlock .moderate .severe = true ∧ (moderate offGuard ("damn")).matches' = [] :=
  ⟨prof_level_gating_monotone.2.1 .severe (by decide),
   prof_level_gating_monotone.2.2.2 offGuard ("damn") rfl⟩

/-- C3: `exportLibrary()`, then `clearLibrary()`, then
`importLibrary(exported)` reproduces the entry count, and every word
resolves to an entry with the same severity and the same alternatives
as before (on any reachable — well-formed — library). -/
theorem prof_export_import_roundtrip (st : EngineState) (h : WF st.wordLibrary) :
    (importLibrary (clearLibrary st) (exportLibrary st)).wordLibrary.length =
      st.wordLibrary.length ∧
    ∀ (w : String) (e : WordEntry), mapGet? st.wordLibrary w = some e →
      ∃ e2, mapGet? (importLibrary (clearLibrary st) (exportLibrary st)).wordLibrary w =
        some e2 ∧ e2.severity = e.severity ∧ e2.alternatives = e.alternatives := by
  have hre := roundtrip_library st h
  constructor
  · rw [hre]; simp
  · intro w e hget
    refine ⟨normAddedEntry e, ?_, rfl, rfl⟩
    rw [hre]
    exact roundtrip_lookup st.wordLibrary h.2 w e hget

theorem prof_export_import_roundtrip_witness :
    (importLibrary (clearLibrary defaultGuard) (exportLibrary defaultGuard)).wordLibrary.length =
      defaultGuard.wordLibrary.length :=
  (prof_export_import_roundtrip defaultGuard ⟨by decide, by decide⟩).1

/-- C5 (counterexample): on a freshly constructed engine the default
level is MODERATE, which does not block the MILD word "damn"; the
sentence is judged clean and returned unchanged, not rewritten to
"This is darn good". -/
theorem prof_alternatives_default_counterexample :
    (moderateSentence defaultGuard ("This is damn good") true).sanitized =
      ("This is damn good") ∧
    (moderateSentence defaultGuard ("This is damn good") true).sanitized ≠
      ("This is darn good") := by
  constructor <;> decide

/-- C5 (amended): at a level that blocks MILD words (STRICT),
`moderateSentence("This is damn good", preserveStructure = true)`
replaces "damn" with the first configured alternative "darn". -/
theorem prof_alternatives_strict :
    (moderateSentence strictGuard ("This is damn good") true).sanitized =
      ("This is darn good") := by
  decide

/-- C6: an empty library or level OFF short-circuits `moderate` to the
neutral clean result with the input returned unchanged. -/
theorem prof_moderate_shortcircuit (st : EngineState) (content : String)
    (h : st.wordLibrary.length = 0 ∨ st.moderationLevel = ModerationLevel.off) :
    moderate st content =
      { isClean := true, foundWords := [], severity := none, sanitized := content,
        matches' := [] } := by
  rw [moderate, if_pos h]

theorem prof_moderate_shortcircuit_witness :
    moderate emptyLibGuard ("damn shit") =
      { isClean := true, foundWords := [], severity := none, sanitized := ("damn shit"),
        matches' := [] } :=
  prof_moderate_shortcircuit emptyLibGuard ("damn shit") (Or.inl rfl)

/-- C7: sanitization is idempotent on text that is clean after the
first pass: if `moderate(sanitize(x))` is clean then
`sanitize(sanitize(x)) = sanitize(x)`. -/
theorem prof_sanitize_idempotent (st : EngineState) (x : String)
    (h : (moderate st (sanitize st x)).isClean = true) :
    sanitize st (sanitize st x) = sanitize st x :=
  moderate_clean_sanitized h

theorem prof_sanitize_idempotent_witness :
    sanitize defaultGuard (sanitize defaultGuard ("hello")) =
      sanitize defaultGuard ("hello") :=
  prof_sanitize_idempotent defaultGuard ("hello") (by decide)

/-- C8: on a fresh default engine, the empty string, a whitespace-only
string and `"classic"` are all clean — in particular the library entry
`"ass"` (present in the default library) is not flagged as a substring
of `"classic"`, because matching only fires at token boundaries. -/
theorem prof_boundary_inputs :
    (moderate defaultGuard ("")).isClean = true ∧
    (moderate defaultGuard ("   ")).isClean = true ∧
    (moderate defaultGuard ("classic")).isClean = true ∧
    hasWord defaultGuard ("ass") = true := by
  refine ⟨by decide, by decide, by decide, by decide⟩

/-- C9: `moderate` does not mutate the engine: the word library, the
moderation level, and the censor character after the call are those
from before the call.  (In the source the method body contains no
assignment to any instance field, so its state-passing form returns
the input state.) -/
theorem prof_moderate_frame (st : EngineState) (content : String) :
    (moderateStateful st content).2.wordLibrary = st.wordLibrary ∧
    (moderateStateful st content).2.moderationLevel = st.moderationLevel ∧
    (moderateStateful st content).2.censorChar = st.censorChar :=
  ⟨rfl, rfl, rfl⟩

/-- C10: `importLibrary`/`addWords` never forward the supplied entry's
`variants`: after an import, every imported word's stored entry has an
empty variants list (so an export/clear/import cycle preserves only
severity and alternatives, never variants). -/
theorem prof_import_drops_variants (st : EngineState) (entries : List WordEntry)
    (e : WordEntry) (h : e ∈ entries) :
    ∃ v, mapGet? (importLibrary st entries).wordLibrary (toLowerStr e.word) = some v ∧
      v.variants = [] := by
  obtain ⟨e2, _, hg, _⟩ := addWordsL_mem_lookup entries st.wordLibrary (toLowerStr e.word)
    (List.mem_map_of_mem _ h)
  exact ⟨normAddedEntry e2, hg, rfl⟩

theorem prof_import_drops_variants_witness :
    ∃ v, mapGet? (importLibrary defaultGuard [c10Entry]).wordLibrary
        (toLowerStr c10Entry.word) = some v ∧ v.variants = [] :=
  prof_import_drops_variants defaultGuard [c10Entry] c10Entry (List.mem_singleton.mpr rfl)
